import Mathlib

/-!
Formal model of the cross-process file-backed event queue of the
Website Analytics Backend System (shared_queue.py, ingestion_api.py),
with proofs of the specified queue properties.

Modelling conventions:
- A queue record (an event) is an ordered mapping of field name to string
  value, exactly the flat string-valued JSON objects this system writes.
- The queue file is a value of type FileState: Option (List Line), where
  none means the file does not exist and some lines is its list of lines,
  each stored without its terminating newline (every writer appends a
  newline, and readers strip it before use, so the terminator carries no
  information).
- Python str.strip is modelled by the function strip below; json.dumps and
  json.loads are modelled by dumps and loads, restricted to the flat
  string-valued objects that are the only payloads this system serializes
  (dumps reproduces the default json.dumps separators).
- I/O failure of the append path (disk full, permissions) is modelled by a
  boolean parameter ioFail to the append operation; every other operation
  in shared_queue.py swallows its exceptions and is total.
-/

/-- Event: an ordered mapping of field name to string value, the payload
type of the queue (json object with string fields). -/
abbrev Event := List (String × String)

/-- Line: one line of the queue file, without its terminating newline. -/
abbrev Line := String

/-- FileState: none when the queue file does not exist, some lines when it
exists with the given lines. -/
abbrev FileState := Option (List Line)

/-- Model of Python str.strip(): remove whitespace from both ends. -/
def strip (s : String) : String :=
  String.mk (((s.data.dropWhile Char.isWhitespace).reverse.dropWhile
    Char.isWhitespace).reverse)

/-- Model of json.dumps on a flat string-valued object, with the default
json.dumps separators (a comma-space between members, colon-space inside
a member). -/
def dumps (e : Event) : String :=
  "\x7b" ++ String.intercalate ", "
    (e.map (fun p => "\"" ++ p.1 ++ "\": \"" ++ p.2 ++ "\"")) ++ "\x7d"

/-- Skip space and tab characters (the insignificant whitespace json.loads
accepts between tokens on a single line). -/
def skipWs : List Char → List Char
  | [] => []
  | c :: cs => if c = ' ' ∨ c = '\t' then skipWs cs else c :: cs

/-- Accumulating loop of the string-literal scanner: consume characters up
to the closing quote; escapes are not produced by this system and are
rejected. -/
def scanStr : List Char → List Char → Option (String × List Char)
  | [], _ => none
  | c :: cs, acc =>
    if c = '"' then some (String.mk acc.reverse, cs)
    else if c = '\\' then none
    else scanStr cs (c :: acc)

/-- Parse one json string literal from the head of the input. -/
def parseStr (cs : List Char) : Option (String × List Char) :=
  match cs with
  | '"' :: rest => scanStr rest []
  | _ => none

/-- Parse the members of a json object after the opening brace, returning
the pairs and the input remaining after the closing brace. Fuel bounds the
recursion; loads supplies one unit per input character, which is ample
since every member consumes at least one character. -/
def parseMembers : Nat → List Char → Option (List (String × String) × List Char)
  | 0, _ => none
  | Nat.succ fuel, cs =>
    match parseStr (skipWs cs) with
    | none => none
    | some (k, cs1) =>
      match skipWs cs1 with
      | ':' :: cs2 =>
        match parseStr (skipWs cs2) with
        | none => none
        | some (v, cs3) =>
          match skipWs cs3 with
          | ',' :: cs4 =>
            match parseMembers fuel cs4 with
            | some (ps, rest) => some ((k, v) :: ps, rest)
            | none => none
          | '}' :: cs4 => some ([(k, v)], cs4)
          | _ => none
      | _ => none

/-- True when the remaining input is only insignificant whitespace. -/
def isBlankChars (cs : List Char) : Bool :=
  cs.all Char.isWhitespace

/-- Model of json.loads restricted to flat string-valued objects: parse a
whole line as one json object of string fields, or fail (the model of
raising json.JSONDecodeError). -/
def loads (s : String) : Option Event :=
  match skipWs s.data with
  | '{' :: cs =>
    match skipWs cs with
    | '}' :: cs2 => if isBlankChars cs2 then some [] else none
    | cs2 =>
      match parseMembers (cs2.length + 1) cs2 with
      | some (obj, rest) => if isBlankChars rest then some obj else none
      | none => none
  | _ => none

/-- WriteResult: outcome of an append; writeError models the RuntimeError
raised when the underlying file write fails. -/
inductive WriteResult
  | ok (fs : FileState)
  | writeError
deriving DecidableEq, Repr

/-- Model of _append_to_file: open in append mode (creating the file when
absent), write the serialized record plus a newline. The parameter ioFail
models the I/O environment: when true the write raises and the function
re-raises RuntimeError (writeError); when false it succeeds. -/
def _append_to_file (ioFail : Bool) (event_data : Event) (fs : FileState) :
    WriteResult :=
  if ioFail then WriteResult.writeError
  else WriteResult.ok (some (fs.getD [] ++ [dumps event_data]))

/-- Append on a non-failing I/O environment, as a FileState transformer
(the unreachable error branch returns the file unchanged). -/
def appendOk (event_data : Event) (fs : FileState) : FileState :=
  match _append_to_file false event_data fs with
  | WriteResult.ok fs2 => fs2
  | WriteResult.writeError => fs

/-- Model of _read_from_file: read and remove the first event of the queue
file. Returns the parsed event (none on every non-returning path) together
with the file state after the call. Mirrors the source branch for branch:
absent file returns none; no lines returns none; a whitespace-only first
line returns none WITHOUT touching the file; a parse failure drops the
first line (the json.JSONDecodeError handler) and returns none; a parsed
first line is removed and returned. -/
def _read_from_file (fs : FileState) : Option Event × FileState :=
  match fs with
  | none => (none, none)
  | some lines =>
    match lines with
    | [] => (none, some [])
    | l0 :: rest =>
      let first_line := strip l0
      if first_line = "" then (none, some (l0 :: rest))
      else
        match loads first_line with
        | some event => (some event, some rest)
        | none => (none, some rest)

/-- Model of _count_file_lines: number of lines whose strip is non-empty;
0 when the file does not exist. -/
def _count_file_lines (fs : FileState) : Nat :=
  match fs with
  | none => 0
  | some lines => lines.countP (fun l => strip l != "")

/-- Derived iterator: n consecutive _read_from_file calls, collecting the
per-call results in order together with the final file state. -/
def popN : Nat → FileState → List (Option Event) × FileState
  | 0, fs => ([], fs)
  | Nat.succ n, fs =>
    let r := _read_from_file fs
    let rs := popN n r.2
    (r.1 :: rs.1, rs.2)

/-- Derived iterator: append each event of the list in order on a
non-failing I/O environment. -/
def appendAll (events : List Event) (fs : FileState) : FileState :=
  events.foldl (fun acc e => appendOk e acc) fs

/-- Loop body of SharedQueue._load_from_file: replay the lines of the
queue file into the in-memory sequence, stripping each line, skipping
empty lines, and skipping lines whose parse raises (the except continue). -/
def loadLines : List Line → List Event
  | [] => []
  | l :: rest =>
    let line := strip l
    if line = "" then loadLines rest
    else
      match loads line with
      | some event => event :: loadLines rest
      | none => loadLines rest

/-- Model of SharedQueue._load_from_file: the in-memory events replayed
from the queue file; an absent file (or any read error) yields nothing. -/
def SharedQueue._load_from_file (fs : FileState) : List Event :=
  match fs with
  | none => []
  | some lines => loadLines lines

/-- ProducerQueue: the producer-side SharedQueue state
(use_file_directly=False), namely its in-memory FIFO of events. -/
structure ProducerQueue where
  in_memory : List Event
deriving DecidableEq, Repr

/-- Model of SharedQueue.__init__ with use_file_directly=False: create the
in-memory queue and load existing events from the file. -/
def SharedQueue.mk_producer (fs : FileState) : ProducerQueue :=
  ProducerQueue.mk (SharedQueue._load_from_file fs)

/-- PutResult: state after a producer-side put: the queue, the file, and
whether the call raised (the RuntimeError from the failed append
propagating out of put). -/
structure PutResult where
  queue : ProducerQueue
  file : FileState
  raised : Bool
deriving DecidableEq, Repr

/-- Model of SharedQueue.put with use_file_directly=False: push the item
onto the in-memory queue (an unbounded std queue put, which always
succeeds), then append it to the file; a failed append raises out of put,
leaving the in-memory push in place. -/
def SharedQueue.put (ioFail : Bool) (q : ProducerQueue) (item : Event)
    (fs : FileState) : PutResult :=
  let q2 := ProducerQueue.mk (q.in_memory ++ [item])
  match _append_to_file ioFail item fs with
  | WriteResult.ok fs2 => PutResult.mk q2 fs2 false
  | WriteResult.writeError => PutResult.mk q2 fs true

/-- GetOutcome: result of a consumer-side get. emptyExc models raising
queue.Empty (the source raises this same exception both for a
non-blocking miss and for an exhausted timeout); fuelOut is the artifact
of bounding the unbounded polling loop with fuel. -/
inductive GetOutcome
  | record (e : Event)
  | emptyExc
  | fuelOut
deriving DecidableEq, Repr

/-- Model of SharedQueue.get with use_file_directly=True: poll
_read_from_file until a record arrives; raise queue.Empty at once when not
blocking, and raise queue.Empty when a set timeout is exhausted. Time is
measured in poll intervals (the 0.1 s sleep): elapsed counts completed
sleeps and timeout is compared against it, mirroring the elapsed-vs-
timeout check of the source; fuel bounds the loop. -/
def SharedQueue.get_file (block : Bool) (timeout : Option Nat)
    (elapsed : Nat) : Nat → FileState → GetOutcome × FileState
  | 0, fs => (GetOutcome.fuelOut, fs)
  | Nat.succ fuel, fs =>
    let r := _read_from_file fs
    match r.1 with
    | some e => (GetOutcome.record e, r.2)
    | none =>
      if !block then (GetOutcome.emptyExc, r.2)
      else
        match timeout with
        | some t =>
          if t ≤ elapsed then (GetOutcome.emptyExc, r.2)
          else SharedQueue.get_file block timeout (elapsed + 1) fuel r.2
        | none => SharedQueue.get_file block timeout (elapsed + 1) fuel r.2

/-- JVal: a json value as seen by the ingestion endpoint, distinguishing
only what validate_event's isinstance checks inspect: a string, or any
non-string json value. -/
inductive JVal
  | str (s : String)
  | other
deriving DecidableEq, Repr

/-- ReqData: a parsed request body, an ordered mapping of field name to
json value (Python dict with insertion order). -/
abbrev ReqData := List (String × JVal)

/-- Model of validate_event: site_id and event_type must be present,
strings, and non-empty after strip, checked in source order. -/
def validate_event (data : ReqData) : Bool × String :=
  match data.lookup "site_id" with
  | none => (false, "Missing required field: site_id")
  | some v =>
    match v with
    | JVal.other => (false, "site_id must be a non-empty string")
    | JVal.str s =>
      if strip s = "" then (false, "site_id must be a non-empty string")
      else
        match data.lookup "event_type" with
        | none => (false, "Missing required field: event_type")
        | some w =>
          match w with
          | JVal.other => (false, "event_type must be a non-empty string")
          | JVal.str t =>
            if strip t = "" then (false, "event_type must be a non-empty string")
            else (true, "")

/-- ApiResult: outcome of the receive_event handler: a 200 with the record
that was pushed onto the queue, or a 400 rejection with its error
message. -/
inductive ApiResult
  | queued (record : ReqData)
  | badRequest (error : String)
deriving DecidableEq, Repr

/-- Model of receive_event: check the content type, check the parsed body,
validate, add a timestamp field when absent (dict assignment of a new key
appends it in insertion order; now models datetime.utcnow().isoformat()),
and push the record onto the queue. -/
def receive_event (isJson : Bool) (body : Option ReqData) (now : String) :
    ApiResult :=
  if !isJson then ApiResult.badRequest "Content-Type must be application/json"
  else
    match body with
    | none => ApiResult.badRequest "Invalid JSON: empty or malformed request body"
    | some event_data =>
      let vr := validate_event event_data
      if !vr.1 then ApiResult.badRequest vr.2
      else
        let event_data2 :=
          if (event_data.lookup "timestamp").isSome then event_data
          else event_data ++ [("timestamp", JVal.str (now ++ "Z"))]
        ApiResult.queued event_data2

/-- Concrete view event of the spec scenario. -/
def ev_view : Event := [("site_id", "s1"), ("event_type", "view")]

/-- Concrete click event of the spec scenario. -/
def ev_click : Event := [("site_id", "s1"), ("event_type", "click")]

/-- GoodEvent: the event serializes to a line that survives the read path
unchanged: its json text is its own strip (it has no leading or trailing
whitespace) and parsing inverts serialization. Every record this system
writes satisfies it; it is decidable for concrete events. -/
def GoodEvent (e : Event) : Prop :=
  strip (dumps e) = dumps e ∧ loads (dumps e) = some e

instance (e : Event) : Decidable (GoodEvent e) :=
  inferInstanceAs (Decidable (And _ _))

/-- Concrete valid request body of the ingestion scenario. -/
def req_view : ReqData := [("site_id", JVal.str "s1"), ("event_type", JVal.str "view")]

/-- Request body req_view with the timestamp the handler adds. -/
def req_view_ts : ReqData := req_view ++ [("timestamp", JVal.str "TZ")]

/-! ## Helper lemmas -/

/-- Parsing the empty string fails. -/
lemma loads_empty : loads "" = none := rfl

/-- An event whose serialization parses back serializes to a non-empty
line. -/
lemma dumps_ne_empty_of_loads {e : Event} (h : loads (dumps e) = some e) :
    dumps e ≠ "" := by
  intro hd
  rw [hd, loads_empty] at h
  exact Option.noConfusion h

/-- Reading a file whose first line is the serialization of a GoodEvent
returns that event and leaves exactly the remaining lines. -/
lemma read_cons_dumps {e : Event} (h : GoodEvent e) (rest : List Line) :
    _read_from_file (some (dumps e :: rest)) = (some e, some rest) := by
  obtain ⟨hstrip, hloads⟩ := h
  have hne : dumps e ≠ "" := dumps_ne_empty_of_loads hloads
  simp only [_read_from_file, hstrip, if_neg hne, hloads]

/-- Appending a list of events to an existing file puts their
serializations at the end, in order. -/
lemma appendAll_some (events : List Event) :
    ∀ ls : List Line, appendAll events (some ls) = some (ls ++ events.map dumps) := by
  induction events with
  | nil => intro ls; simp [appendAll]
  | cons e es ih =>
    intro ls
    have hstep : appendAll (e :: es) (some ls) =
        appendAll es (some (ls ++ [dumps e])) := rfl
    rw [hstep, ih]
    simp

/-- Popping as many times as there are serialized GoodEvents in the file
returns exactly those events in order and empties the file. -/
lemma popN_dumps (events : List Event) (hwf : ∀ e ∈ events, GoodEvent e) :
    popN events.length (some (events.map dumps)) = (events.map some, some []) := by
  induction events with
  | nil => rfl
  | cons e es ih =>
    have hgood : GoodEvent e := hwf e (List.mem_cons_self e es)
    have ihs : popN es.length (some (es.map dumps)) = (es.map some, some []) :=
      ih (fun x hx => hwf x (List.mem_cons_of_mem e hx))
    simp only [List.map_cons, List.length_cons, popN,
      read_cons_dumps hgood, ihs]

/-- Every successfully popped event is the parse of the strip of some line
of the file; popping never invents records. -/
lemma popN_sound : ∀ (k : Nat) (ls : List Line) (x : Event),
    Option.some x ∈ (popN k (some ls)).1 → ∃ l ∈ ls, loads (strip l) = some x := by
  intro k
  induction k with
  | zero => intro ls x h; simp [popN] at h
  | succ k ih =>
    intro ls x h
    match ls with
    | [] =>
      simp only [popN, _read_from_file, List.mem_cons] at h
      rcases h with h | h
      · exact Option.noConfusion h
      · exact ih [] x h
    | l0 :: rest =>
      by_cases hb : strip l0 = ""
      · simp only [popN, _read_from_file, if_pos hb, List.mem_cons] at h
        rcases h with h | h
        · exact Option.noConfusion h
        · exact ih (l0 :: rest) x h
      · cases hl : loads (strip l0) with
        | some e =>
          simp only [popN, _read_from_file, if_neg hb, hl, List.mem_cons] at h
          rcases h with h | h
          · obtain rfl : x = e := Option.some.inj h
            exact ⟨l0, List.mem_cons_self l0 rest, hl⟩
          · obtain ⟨l, hmem, hp⟩ := ih rest x h
            exact ⟨l, List.mem_cons_of_mem l0 hmem, hp⟩
        | none =>
          simp only [popN, _read_from_file, if_neg hb, hl, List.mem_cons] at h
          rcases h with h | h
          · exact Option.noConfusion h
          · obtain ⟨l, hmem, hp⟩ := ih rest x h
            exact ⟨l, List.mem_cons_of_mem l0 hmem, hp⟩

/-- A polling get on a stably empty file with a set timeout raises
queue.Empty once the timeout is exhausted. -/
lemma get_file_timeout_exhausts (fs : FileState)
    (hstable : _read_from_file fs = (none, fs)) :
    ∀ (fuel elapsed t : Nat), t - elapsed < fuel →
      SharedQueue.get_file true (some t) elapsed fuel fs =
        (GetOutcome.emptyExc, fs) := by
  intro fuel
  induction fuel with
  | zero => intro elapsed t h; omega
  | succ fuel ih =>
    intro elapsed t h
    by_cases ht : t ≤ elapsed
    · simp only [SharedQueue.get_file, hstable, Bool.not_true, if_pos ht]
      rfl
    · have hrec : t - (elapsed + 1) < fuel := by omega
      simp only [SharedQueue.get_file, hstable, Bool.not_true, if_neg ht]
      exact ih (elapsed + 1) t hrec

/-- A field appended at the end of a record is found by lookup. -/
lemma lookup_append_key (data : ReqData) (k : String) (v : JVal) :
    ((data ++ [(k, v)]).lookup k).isSome = true := by
  induction data with
  | nil => simp [List.lookup]
  | cons p rest ih =>
    cases hpk : (k == p.1) with
    | true => simp [List.lookup, hpk]
    | false => simp only [List.cons_append, List.lookup, hpk]; exact ih

/-! ## Claim theorems -/

/-- C1 counterexample: on an empty queue file, get(block=True, timeout=T)
that exhausts its timeout and get(block=False) produce the very same
outcome (both raise queue.Empty), so the two are NOT distinguishable by
the caller. -/
theorem get_timeout_signal_cex :
  SharedQueue.get_file true (some 1) 0 2 (some []) =
    SharedQueue.get_file false none 0 2 (some []) ∧
  (SharedQueue.get_file true (some 1) 0 2 (some [])).1 = GetOutcome.emptyExc := by
  decide

/-- C1 amended: for the consumer-side reader, a get(block=True,
timeout=T) call that exhausts its timeout on a stably empty queue raises
the same queue.Empty signal as get(block=False) on an empty queue; the
two outcomes are identical, hence not distinguishable by the caller. -/
theorem get_timeout_and_empty_same_signal (fs : FileState)
    (hstable : _read_from_file fs = (none, fs)) (t fuel : Nat)
    (hfuel : t < fuel) :
  SharedQueue.get_file true (some t) 0 fuel fs = (GetOutcome.emptyExc, fs) ∧
  SharedQueue.get_file false none 0 fuel fs = (GetOutcome.emptyExc, fs) := by
  constructor
  · exact get_file_timeout_exhausts fs hstable fuel 0 t (by omega)
  · cases fuel with
    | zero => omega
    | succ fuel => simp [SharedQueue.get_file, hstable]

/-- C1 witness: the amended theorem at an empty file, timeout one poll
interval, fuel two. -/
theorem get_timeout_and_empty_same_signal_witness :
  SharedQueue.get_file true (some 1) 0 2 (some []) =
      (GetOutcome.emptyExc, some []) ∧
  SharedQueue.get_file false none 0 2 (some []) =
      (GetOutcome.emptyExc, some []) :=
  get_timeout_and_empty_same_signal (some []) (by decide) 1 2 (by decide)

/-- C2: for every sequence of N well-formed records appended to an empty
or absent durable log before any pop begins, N consecutive pop_front
calls return exactly those N records in the order appended. -/
theorem fifo_append_then_pop (events : List Event) (fs0 : FileState)
    (hempty : fs0 = none ∨ fs0 = some [])
    (hwf : ∀ e ∈ events, GoodEvent e) :
  (popN events.length (appendAll events fs0)).1 = events.map Option.some := by
  cases events with
  | nil => rcases hempty with rfl | rfl <;> rfl
  | cons e es =>
    have h1 : appendAll (e :: es) fs0 = appendAll es (some [dumps e]) := by
      rcases hempty with rfl | rfl <;> rfl
    have h2 : appendAll es (some [dumps e]) = some ((e :: es).map dumps) := by
      rw [appendAll_some]; simp
    rw [h1, h2, popN_dumps (e :: es) hwf]

/-- C2 witness: the FIFO theorem on the concrete view and click events
appended to an absent file. -/
theorem fifo_append_then_pop_witness :
  (popN 2 (appendAll [ev_view, ev_click] none)).1 =
    [some ev_view, some ev_click] :=
  fifo_append_then_pop [ev_view, ev_click] none (Or.inl rfl) (by decide)

/-- C3: under serialized access, a record parsed from the first line is
returned with the file left holding exactly the remaining lines in order,
and when no remaining line parses to that record, no number of later
pop_front calls ever returns it again. -/
theorem pop_front_exactly_once (l0 : Line) (rest : List Line) (e : Event)
    (k : Nat) (hparse : loads (strip l0) = some e)
    (hdistinct : ∀ l ∈ rest, loads (strip l) ≠ some e) :
  _read_from_file (some (l0 :: rest)) = (some e, some rest) ∧
  Option.some e ∉ (popN k (some rest)).1 := by
  have hb : strip l0 ≠ "" := by
    intro h0
    rw [h0, loads_empty] at hparse
    exact Option.noConfusion hparse
  constructor
  · simp only [_read_from_file, if_neg hb, hparse]
  · intro hmem
    obtain ⟨l, hl, hp⟩ := popN_sound k rest e hmem
    exact hdistinct l hl hp

/-- C3 witness: pop the view record off a two-record file, then observe
two further pops of the remainder never return it. -/
theorem pop_front_exactly_once_witness :
  _read_from_file (some [dumps ev_view, dumps ev_click]) =
      (some ev_view, some [dumps ev_click]) ∧
  Option.some ev_view ∉ (popN 2 (some [dumps ev_click])).1 :=
  pop_front_exactly_once (dumps ev_view) [dumps ev_click] ev_view 2
    (by decide) (by decide)

/-- C4: a file whose first line is non-empty but fails to parse, followed
by two valid records, yields after one pop_front call a file holding
exactly the two valid records; the malformed line is discarded, not
returned (the call yields none) and not retried. -/
theorem malformed_first_line_dropped (bad l1 l2 : Line) (e1 e2 : Event)
    (hbadnb : strip bad ≠ "") (hbad : loads (strip bad) = none)
    (_h1 : loads (strip l1) = some e1) (_h2 : loads (strip l2) = some e2) :
  _read_from_file (some [bad, l1, l2]) = (none, some [l1, l2]) := by
  simp only [_read_from_file, if_neg hbadnb, hbad]

/-- C4 witness: a truncated json first line before the view and click
records is dropped by one pop_front, leaving exactly those two records. -/
theorem malformed_first_line_dropped_witness :
  _read_from_file (some ["\x7b\"site_id\": \"s1\"", dumps ev_view, dumps ev_click]) =
    (none, some [dumps ev_view, dumps ev_click]) :=
  malformed_first_line_dropped "\x7b\"site_id\": \"s1\"" (dumps ev_view)
    (dumps ev_click) ev_view ev_click (by decide) (by decide) (by decide)
    (by decide)

/-- C5: when the first line of an existing queue file is whitespace-only,
pop_front returns empty and leaves the file entirely unchanged, and any
number k of further pop_front calls all return empty and leave the file
unchanged, so records after the blank line stay unreachable. -/
theorem blank_first_line_blocks (l0 : Line) (rest : List Line) (k : Nat)
    (hblank : strip l0 = "") :
  _read_from_file (some (l0 :: rest)) = (none, some (l0 :: rest)) ∧
  popN k (some (l0 :: rest)) = (List.replicate k none, some (l0 :: rest)) := by
  have hread : _read_from_file (some (l0 :: rest)) = (none, some (l0 :: rest)) := by
    simp only [_read_from_file, if_pos hblank]
  refine ⟨hread, ?_⟩
  induction k with
  | zero => rfl
  | succ k ih => simp only [popN, hread, ih, List.replicate]

/-- C5 witness: a whitespace-only first line in front of a valid record
makes three consecutive pops return empty without touching the file. -/
theorem blank_first_line_blocks_witness :
  _read_from_file (some ["   ", dumps ev_view]) =
      (none, some ["   ", dumps ev_view]) ∧
  popN 3 (some ["   ", dumps ev_view]) =
      (List.replicate 3 none, some ["   ", dumps ev_view]) :=
  blank_first_line_blocks "   " [dumps ev_view] 3 (by decide)

/-- C6: producer-side put pushes the record onto the in-memory sequence
and then appends it to the file; when the append fails with an I/O error
the call raises a queue-write-failure error while the in-memory sequence
still holds the record, and when the append succeeds the call does not
raise and the record is both in memory and at the end of the file. -/
theorem put_order_and_failure (q : ProducerQueue) (item : Event)
    (fs : FileState) :
  (SharedQueue.put true q item fs).raised = true ∧
  (SharedQueue.put true q item fs).queue.in_memory = q.in_memory ++ [item] ∧
  (SharedQueue.put false q item fs).raised = false ∧
  (SharedQueue.put false q item fs).queue.in_memory = q.in_memory ++ [item] ∧
  (SharedQueue.put false q item fs).file = some (fs.getD [] ++ [dumps item]) := by
  simp [SharedQueue.put, _append_to_file]

/-- C7: constructing a producer-side SharedQueue against a file whose
lines are labelled valid (parsing to a given event) or malformed (failing
to parse, blank lines included) yields an in-memory sequence of exactly
the valid events, in file order; malformed lines are skipped and no error
surfaces. -/
theorem producer_replay_exact (items : List (Line × Option Event))
    (hlabel : ∀ p ∈ items,
      (∀ e, p.2 = some e → loads (strip p.1) = some e) ∧
      (p.2 = none → loads (strip p.1) = none)) :
  (SharedQueue.mk_producer (some (items.map Prod.fst))).in_memory =
    items.filterMap Prod.snd := by
  induction items with
  | nil => rfl
  | cons p its ih =>
    obtain ⟨l, oe⟩ := p
    have hhead := hlabel (l, oe) (List.mem_cons_self _ _)
    have htail : ∀ q ∈ its,
        (∀ e, q.2 = some e → loads (strip q.1) = some e) ∧
        (q.2 = none → loads (strip q.1) = none) :=
      fun q hq => hlabel q (List.mem_cons_of_mem _ hq)
    have ihs := ih htail
    simp only [SharedQueue.mk_producer, SharedQueue._load_from_file] at ihs ⊢
    cases oe with
    | some e =>
      have hp : loads (strip l) = some e := hhead.1 e rfl
      have hne : strip l ≠ "" := by
        intro h0
        rw [h0, loads_empty] at hp
        exact Option.noConfusion hp
      simp only [List.map_cons, List.filterMap_cons, loadLines,
        if_neg hne, hp, ihs]
    | none =>
      have hp : loads (strip l) = none := hhead.2 rfl
      by_cases hb : strip l = ""
      · simp only [List.map_cons, List.filterMap_cons, loadLines,
          if_pos hb, ihs]
      · simp only [List.map_cons, List.filterMap_cons, loadLines,
          if_neg hb, hp, ihs]

/-- C7 witness: replay of a file holding the view record, a malformed
line, a blank line, and the click record yields exactly the two valid
events in order. -/
theorem producer_replay_exact_witness :
  (SharedQueue.mk_producer (some ([(dumps ev_view, some ev_view),
      ("not json", none), ("   ", none),
      (dumps ev_click, some ev_click)].map Prod.fst))).in_memory =
    [ev_view, ev_click] :=
  producer_replay_exact
    [(dumps ev_view, some ev_view), ("not json", none), ("   ", none),
     (dumps ev_click, some ev_click)] (by decide)

/-- C8: when the queue file does not exist, pop_front returns empty and
count returns 0, and neither raises. -/
theorem absent_file_safe :
  _read_from_file none = (none, none) ∧ _count_file_lines none = 0 := by
  decide

/-- C9: the concrete scenario, from both an absent and an empty file:
append the view then the click event; the first pop returns the view
record and count then returns 1; the second pop returns the click record
and count then returns 0; a third pop returns empty. -/
theorem concrete_scenario_fifo :
  (let p1 := _read_from_file (appendAll [ev_view, ev_click] none)
   let p2 := _read_from_file p1.2
   p1.1 = some ev_view ∧ _count_file_lines p1.2 = 1 ∧
   p2.1 = some ev_click ∧ _count_file_lines p2.2 = 0 ∧
   (_read_from_file p2.2).1 = none) ∧
  (let p1 := _read_from_file (appendAll [ev_view, ev_click] (some []))
   let p2 := _read_from_file p1.2
   p1.1 = some ev_view ∧ _count_file_lines p1.2 = 1 ∧
   p2.1 = some ev_click ∧ _count_file_lines p2.2 = 0 ∧
   (_read_from_file p2.2).1 = none) := by
  decide

/-- C10: every record the ingestion handler enqueues carries a timestamp
field: a validated body lacking one gets one added before enqueueing, and
a body already carrying one is enqueued entirely unchanged. -/
theorem receive_event_timestamp (isJson : Bool) (body : Option ReqData)
    (now : String) (rec : ReqData)
    (h : receive_event isJson body now = ApiResult.queued rec) :
  (rec.lookup "timestamp").isSome = true ∧
  (∀ data, body = some data → (data.lookup "timestamp").isSome = true →
    rec = data) := by
  cases isJson with
  | false => exact absurd h (by simp [receive_event])
  | true =>
    cases body with
    | none => exact absurd h (by simp [receive_event])
    | some data =>
      simp only [receive_event, Bool.not_true, Bool.false_eq_true,
        if_false] at h
      by_cases hv : (validate_event data).1 = true
      · rw [if_neg (by simp [hv])] at h
        by_cases hts : (data.lookup "timestamp").isSome = true
        · rw [if_pos hts] at h
          obtain rfl : data = rec := ApiResult.queued.inj h
          exact ⟨hts, fun d hd _ => Option.some.inj hd⟩
        · rw [if_neg hts] at h
          obtain rfl : data ++ [("timestamp", JVal.str (now ++ "Z"))] = rec :=
            ApiResult.queued.inj h
          refine ⟨lookup_append_key data "timestamp" _, ?_⟩
          intro d hd hd_ts
          obtain rfl : data = d := Option.some.inj hd
          exact absurd hd_ts hts
      · rw [if_pos (by simp [hv])] at h
        exact absurd h (by simp)

/-- C10 witness: the theorem applied to a valid view request without a
timestamp, with now fixed to the string T. -/
theorem receive_event_timestamp_witness :
  (req_view_ts.lookup "timestamp").isSome = true ∧
  (∀ data, (some req_view : Option ReqData) = some data →
    (data.lookup "timestamp").isSome = true → req_view_ts = data) :=
  receive_event_timestamp true (some req_view) "T" req_view_ts (by decide)
